import Mathlib

/-
Verification of the face2face embedding store
(src/face2face/core/mixins/_face_embedding.py, class _FaceEmbedding).

The store keeps an in-memory index `self._face_embeddings` (a Python dict)
and a backing directory of `.npz` files, one per sanitized face name.
We embed the Python code shallowly:

  * `Embedding` stands for a list of detected feature vectors
    (a list of `Face` objects in the Python code); the numeric payload is
    modelled with exact naturals, since the binary round trip through
    `np.save` / `np.load` is bit-exact.
  * The dict `self._face_embeddings` is an insertion-ordered association
    list with last-write-wins update (`dictInsert` / `dictGet`), exactly
    the observable semantics of a Python dict.
  * The backing directory is an association list from full file path to
    file bytes.
  * Raising an exception is modelled with `Except`; the `except` block of
    `add_face` only logs and re-raises, so it does not change the result.
  * Each load operation also returns the list of backing-store I/O events
    it performed, so that cache-hit / frame claims can be stated.
-/

namespace Face2Face

/-- One feature vector (the numeric payload of one detected face). -/
abbrev FaceVec := List Nat

/-- The value stored per name: the ordered sequence of detected vectors. -/
abbrev Embedding := List FaceVec

/-- Serialized file contents. -/
abbrev Bytes := List Nat

/-- A key of the Python dict `self._face_embeddings`, and likewise an
element of the `face_names` argument of `load_faces`: either a string or a
non-string `Face` object (opaque, identified by a tag). -/
inductive Elem where
  | name (s : String)
  | faceObj (n : Nat)
deriving DecidableEq, Repr

/-- A key of the dictionary returned by `load_faces` / `load_all_faces`:
a string, a positional index (for non-string list elements), or a
`Face` object key coming from the memory index itself. -/
inductive RKey where
  | str (s : String)
  | idx (i : Nat)
  | face (n : Nat)
deriving DecidableEq, Repr

/-- The exceptions the embedded code can raise.  `notFound` and
`noFaceDetected` are the two `ValueError`s raised in `_face_embedding.py`
(the spec calls them `NotFoundError` and `NoFaceDetectedError`);
`corruptData` is named `CorruptDataError` in the spec;
`ioFailure` models a propagating OS error from `os.makedirs` or the
file write. -/
inductive Err where
  | notFound (who : String)
  | noFaceDetected (who : String)
  | corruptData (file : String)
  | ioFailure
deriving DecidableEq, Repr

/-- Backing-store I/O events performed by an operation. -/
inductive IOEv where
  | readAttempt (file : String)
deriving DecidableEq, Repr

/-- Python dict lookup on an insertion-ordered association list. -/
def dictGet {α β : Type} [DecidableEq α] : List (α × β) → α → Option β
  | [], _ => none
  | (k, v) :: rest, k0 => if k = k0 then some v else dictGet rest k0

/-- Python dict assignment `d[k] = v`: update in place if the key exists,
otherwise append at the end (insertion order preserved). -/
def dictInsert {α β : Type} [DecidableEq α] : List (α × β) → α → β → List (α × β)
  | [], k, v => [(k, v)]
  | (k0, v0) :: rest, k, v =>
      if k0 = k then (k, v) :: rest else (k0, v0) :: dictInsert rest k v

theorem dictGet_dictInsert_self {α β : Type} [DecidableEq α]
    (l : List (α × β)) (k : α) (v : β) :
    dictGet (dictInsert l k v) k = some v := by
  induction l with
  | nil => simp [dictInsert, dictGet]
  | cons kv rest ih =>
      obtain ⟨k0, v0⟩ := kv
      by_cases h : k0 = k <;> simp [dictInsert, dictGet, h, ih]

theorem dictInsert_eq_append {α β : Type} [DecidableEq α]
    (l : List (α × β)) (k : α) (v : β) (h : ∀ p ∈ l, p.1 ≠ k) :
    dictInsert l k v = l ++ [(k, v)] := by
  induction l with
  | nil => rfl
  | cons kv rest ih =>
      obtain ⟨k0, v0⟩ := kv
      have hk : k0 ≠ k := h (k0, v0) (List.mem_cons_self _ _)
      simp only [dictInsert, if_neg hk, List.cons_append, List.cons.injEq, true_and]
      exact ih fun p hp => h p (List.mem_cons_of_mem _ hp)

/- ----------------------------------------------------------------------
Serializer.

The Python code serializes with `np.save(virtual_file, arr=[FileWriteableFace
(face) for face in detected_faces], allow_pickle=True)` and deserializes in
`load_reference_face_from_file` (module
face2face/core/modules/storage/f2f_loader.py, which is not part of the
sources under verification).

Modelled from the spec: the Serializer encodes a sequence of feature
vectors into a self-describing buffer holding the vector count, the
dimensionality of each vector, and the raw numeric payload; `decode` is its
inverse and fails (`CorruptDataError`, here `none`) on a buffer whose
structural markers are inconsistent.
---------------------------------------------------------------------- -/

/-- Modelled from the spec: body of the encoded buffer — for each vector,
its dimensionality followed by its payload. -/
def encodeBody : List FaceVec → Bytes
  | [] => []
  | v :: rest => v.length :: (v ++ encodeBody rest)

/-- Modelled from the spec: `encode(vectors) -> bytes`; the buffer starts
with the vector count, then the body.  Supports the empty sequence. -/
def encodeVectors (v : Embedding) : Bytes :=
  v.length :: encodeBody v

/-- Read one vector of the given dimensionality off the front of the
buffer; fails if the buffer is too short. -/
def readVec : Nat → Bytes → Option (FaceVec × Bytes)
  | 0, b => some ([], b)
  | _ + 1, [] => none
  | n + 1, x :: b =>
      match readVec n b with
      | none => none
      | some (v, r) => some (x :: v, r)

/-- Read the given number of (dimensionality, payload) groups; fails on a
truncated buffer or trailing garbage. -/
def readVecs : Nat → Bytes → Option (List FaceVec)
  | 0, [] => some []
  | 0, _ :: _ => none
  | _ + 1, [] => none
  | n + 1, d :: b =>
      match readVec d b with
      | none => none
      | some (v, r) =>
          match readVecs n r with
          | none => none
          | some vs => some (v :: vs)

/-- Modelled from the spec: `decode(bytes) -> sequence of vectors`, the
inverse of `encodeVectors`; `none` stands for `CorruptDataError`. -/
def decodeVectors : Bytes → Option Embedding
  | [] => none
  | c :: rest => readVecs c rest

theorem readVec_append (v : FaceVec) (r : Bytes) :
    readVec v.length (v ++ r) = some (v, r) := by
  induction v with
  | nil => rfl
  | cons x xs ih => simp [readVec, ih]

theorem readVecs_encodeBody (l : List FaceVec) :
    readVecs l.length (encodeBody l) = some l := by
  induction l with
  | nil => rfl
  | cons v rest ih => simp [encodeBody, readVecs, readVec_append, ih]

theorem decode_encode (v : Embedding) :
    decodeVectors (encodeVectors v) = some v := by
  simp [encodeVectors, decodeVectors, readVecs_encodeBody]

/- ----------------------------------------------------------------------
Store state and collaborators.
---------------------------------------------------------------------- -/

/-- The embeddings directory (`EMBEDDINGS_DIR` in face2face/settings.py,
also `self._face_embedding_folder`; the spec states a single configured
directory path). -/
def EMBEDDINGS_DIR : String := "emb"

/-- Model of `os.path.join` for a relative second component, as built by
the code under verification (`os.path.join(folder, name ++ ".npz")`). -/
def pathJoin (a b : String) : String := a ++ "/" ++ b

/-- Rendering of a dict key as a string, as the f-string
`f"{face_name}.npz"` does: a string renders as itself, a `Face` object
by its repr. -/
def elemStr : Elem → String
  | .name s => s
  | .faceObj n => "<Face " ++ toString n ++ ">"

/-- State of one `Face2Face` store instance together with its backing
directory: `mem` is the dict `self._face_embeddings`, `disk` maps the
full file path to the bytes of the file. -/
structure F2FState where
  mem : List (Elem × Embedding)
  disk : List (String × Bytes)
deriving DecidableEq, Repr

/-- Result of `load_face`: the returned embedding or the raised
exception, the post-call state, and the backing-store I/O performed. -/
structure LoadResult where
  result : Except Err Embedding
  state : F2FState
  ioEvents : List IOEv
deriving Repr

/-- Modelled from the spec: `load_reference_face_from_file` (module
f2f_loader.py, not among the sources under verification) attempts to read
the file from the backing store, returns `none` when the file is absent,
and decodes the bytes through the Serializer, raising `CorruptDataError`
when decoding fails. -/
def load_reference_face_from_file (disk : List (String × Bytes))
    (file : String) : Except Err (Option Embedding) :=
  match dictGet disk file with
  | none => .ok none
  | some b =>
      match decodeVectors b with
      | none => .error (.corruptData file)
      | some v => .ok (some v)

/-- Modelled from the spec: `encode_path_safe` (utils module, not among
the sources under verification) is the pure, deterministic
`sanitize(name) -> key` collaborator producing a filesystem-safe key;
modelled as replacing every non-alphanumeric character by an
underscore. -/
def encode_path_safe (s : String) : String :=
  ⟨s.data.map fun c => if c.isAlphanum then c else '_'⟩

/-- Boolean prefix test on character lists (structural helper for the
glob model). -/
def preList : List Char → List Char → Bool
  | [], _ => true
  | _ :: _, [] => false
  | a :: as, b :: bs => a == b && preList as bs

/-- `_FaceEmbedding.load_face` (lines 26-50): return the memory-index
entry if present (no disk access); otherwise read
`os.path.join(folder, f"{face_name}.npz")` via
`load_reference_face_from_file`, raise `ValueError` ("not found") when
that returns `None`, wrap the decoded records in `Face` objects (the
identity on the payload here), cache them in the memory index under the
key that was passed in, and return them. -/
def load_face (st : F2FState) (key : Elem) : LoadResult :=
  match dictGet st.mem key with
  | some emb => ⟨.ok emb, st, []⟩
  | none =>
      let file := pathJoin EMBEDDINGS_DIR (elemStr key ++ ".npz")
      match load_reference_face_from_file st.disk file with
        | .error e => ⟨.error e, st, [.readAttempt file]⟩
        | .ok none => ⟨.error (.notFound (elemStr key)), st, [.readAttempt file]⟩
        | .ok (some emb) =>
            ⟨.ok emb, ⟨dictInsert st.mem key emb, st.disk⟩, [.readAttempt file]⟩

/-- Result of `add_face`: the returned `(sanitized name, bytes)` pair or
the raised exception, and the post-call state. -/
structure AddResult where
  result : Except Err (String × Bytes)
  state : F2FState
deriving Repr

/-- `_FaceEmbedding.add_face` (lines 78-124).  `detected` is the value of
`self.detect_faces(image)` (the opaque `detect` collaborator); `save` is
the `save` flag; `diskFail` models an OS error raised by `os.makedirs` or
the file write when saving (`IOFailure` in the spec), which the `except`
block logs and re-raises.  The code sanitizes the name, rejects an empty
detection with `ValueError` ("no faces detected"), assigns the memory
index at the sanitized name, serializes to the virtual file, and only
then, when `save` is set, writes the buffer to
`os.path.join(EMBEDDINGS_DIR, f"{face_name}.npz")`, truncating any
existing file (`open(filename, "wb")`). -/
def add_face (st : F2FState) (face_name : String) (detected : Embedding)
    (save : Bool) (diskFail : Bool) : AddResult :=
  let key := encode_path_safe face_name
  if detected = [] then
      ⟨.error (.noFaceDetected key), st⟩
    else
    let mem1 := dictInsert st.mem (.name key) detected
    let bytes := encodeVectors detected
    if save then
      if diskFail then
        ⟨.error .ioFailure, ⟨mem1, st.disk⟩⟩
      else
        ⟨.ok (key, bytes),
         ⟨mem1, dictInsert st.disk (pathJoin EMBEDDINGS_DIR (key ++ ".npz")) bytes⟩⟩
    else
      ⟨.ok (key, bytes), ⟨mem1, st.disk⟩⟩

/-- Result of a batch load (`load_faces` / `load_all_faces`). -/
structure BatchResult where
  result : Except Err (List (RKey × Embedding))
  state : F2FState
  ioEvents : List IOEv
deriving Repr

/-- The dict key used by the comprehension in `load_faces`:
`face if isinstance(face, str) else i`. -/
def keyOf (e : Elem) (i : Nat) : RKey :=
  match e with
  | .name s => .str s
  | .faceObj _ => .idx i

/-- A memory-index key viewed as a key of the returned dict (used when
`load_all_faces` returns `self._face_embeddings` itself). -/
def rkeyOfElem : Elem → RKey
  | .name s => .str s
  | .faceObj n => .face n

/-- The dict comprehension of `load_faces` over a list argument:
for each element in order, evaluate `self.load_face(face)` (threading the
store state and propagating the first exception) and assign the result
into the dict being built under `face if isinstance(face, str) else i`. -/
def load_faces_seq (st : F2FState) (acc : List (RKey × Embedding))
    (i : Nat) : List Elem → BatchResult
  | [] => ⟨.ok acc, st, []⟩
  | e :: rest =>
      let r := load_face st e
      match r.result with
      | .error err => ⟨.error err, r.state, r.ioEvents⟩
      | .ok emb =>
          let b := load_faces_seq r.state (dictInsert acc (keyOf e i) emb)
              (i + 1) rest
          ⟨b.result, b.state, r.ioEvents ++ b.ioEvents⟩

/-- `glob.glob(self._face_embedding_folder + "/*.npz")`: the full paths of
the files directly inside the embeddings directory whose names end in
`.npz`. -/
def globNpz (disk : List (String × Bytes)) : List String :=
  (disk.map Prod.fst).filter fun p =>
    preList (EMBEDDINGS_DIR ++ "/").data p.data &&
      preList ".npz".data.reverse p.data.reverse &&
      ((p.data.drop (EMBEDDINGS_DIR ++ "/").data.length).all fun c => c != '/')

/-- The loop of `load_all_faces`: `for face_name in glob.glob(...):
self.load_face(face_name)` — each glob result (a full path) is passed to
`load_face` as the face name; an exception aborts the loop. -/
def load_all_loop (st : F2FState) : List String → (Except Err Unit) × F2FState × List IOEv
  | [] => (.ok (), st, [])
  | p :: rest =>
      let r := load_face st (.name p)
      match r.result with
      | .error e => (.error e, r.state, r.ioEvents)
      | .ok _ =>
          let rest2 := load_all_loop r.state rest
          (rest2.1, rest2.2.1, r.ioEvents ++ rest2.2.2)

/-- `_FaceEmbedding.load_all_faces` (lines 70-76): run the glob loop and
return `self._face_embeddings`. -/
def load_all_faces (st : F2FState) : BatchResult :=
  match load_all_loop st (globNpz st.disk) with
  | (.error e, st2, io2) => ⟨.error e, st2, io2⟩
  | (.ok _, st2, io2) =>
      ⟨.ok (st2.mem.map fun kv => (rkeyOfElem kv.1, kv.2)), st2, io2⟩

/-- The `face_names` argument of `load_faces`:
`None`, a single string, or a list of strings / `Face` objects. -/
abbrev Req := Option (String ⊕ List Elem)

/-- `_FaceEmbedding.load_faces` (lines 52-68): dispatch on the shape of
`face_names` — `None` delegates to `load_all_faces`, a single string
returns `{face_names: self.load_face(face_names)}`, and a list is handled
by the dict comprehension `load_faces_seq`. -/
def load_faces (st : F2FState) : Req → BatchResult
  | none => load_all_faces st
  | some (.inl s) =>
      let r := load_face st (.name s)
      match r.result with
      | .error e => ⟨.error e, r.state, r.ioEvents⟩
      | .ok emb => ⟨.ok [(.str s, emb)], r.state, r.ioEvents⟩
  | some (.inr elems) => load_faces_seq st [] 0 elems

/-- Follows the spec wording for the batch lookup (the reference for the
dispatch claim): one entry per element, in order, each obtained through
`load_face`, keyed by the element itself for a string element and by its
positional index otherwise; the first failing lookup aborts the whole
batch with that error and no partial result. -/
def getManySpec (i : Nat) (st : F2FState) : List Elem → BatchResult
  | [] => ⟨.ok [], st, []⟩
  | e :: rest =>
      let r := load_face st e
      match r.result with
      | .error err => ⟨.error err, r.state, r.ioEvents⟩
      | .ok emb =>
          let b := getManySpec (i + 1) r.state rest
          match b.result with
          | .error err => ⟨.error err, b.state, r.ioEvents ++ b.ioEvents⟩
          | .ok tail =>
              ⟨.ok ((keyOf e i, emb) :: tail), b.state, r.ioEvents ++ b.ioEvents⟩

/-- The dict keys the comprehension of `load_faces` derives for a list
argument, starting at index `i`. -/
def derivedKeys : Nat → List Elem → List RKey
  | _, [] => []
  | i, e :: rest => keyOf e i :: derivedKeys (i + 1) rest

/-- Folding dict assignment of a list of pairs into an accumulator dict. -/
def dinsertAll : List (RKey × Embedding) → List (RKey × Embedding) →
    List (RKey × Embedding)
  | acc, [] => acc
  | acc, kv :: rest => dinsertAll (dictInsert acc kv.1 kv.2) rest

/- ----------------------------------------------------------------------
Helper lemmas about `load_face`.
---------------------------------------------------------------------- -/

theorem load_face_eq_mem (st : F2FState) (key : Elem) (emb : Embedding)
    (h : dictGet st.mem key = some emb) :
    load_face st key = ⟨.ok emb, st, []⟩ := by
  unfold load_face
  rw [h]

theorem load_face_eq_miss_absent (st : F2FState) (key : Elem)
    (h : dictGet st.mem key = none)
    (h2 : dictGet st.disk (pathJoin EMBEDDINGS_DIR (elemStr key ++ ".npz")) = none) :
    load_face st key = ⟨.error (.notFound (elemStr key)), st,
      [.readAttempt (pathJoin EMBEDDINGS_DIR (elemStr key ++ ".npz"))]⟩ := by
  simp only [load_face, load_reference_face_from_file, h, h2]

theorem load_face_eq_miss_hit (st : F2FState) (key : Elem) (b : Bytes)
    (emb : Embedding) (h : dictGet st.mem key = none)
    (h2 : dictGet st.disk (pathJoin EMBEDDINGS_DIR (elemStr key ++ ".npz")) = some b)
    (h3 : decodeVectors b = some emb) :
    load_face st key = ⟨.ok emb, ⟨dictInsert st.mem key emb, st.disk⟩,
      [.readAttempt (pathJoin EMBEDDINGS_DIR (elemStr key ++ ".npz"))]⟩ := by
  simp only [load_face, load_reference_face_from_file, h, h2, h3]

theorem load_face_eq_miss_corrupt (st : F2FState) (key : Elem) (b : Bytes)
    (h : dictGet st.mem key = none)
    (h2 : dictGet st.disk (pathJoin EMBEDDINGS_DIR (elemStr key ++ ".npz")) = some b)
    (h3 : decodeVectors b = none) :
    load_face st key
      = ⟨.error (.corruptData (pathJoin EMBEDDINGS_DIR (elemStr key ++ ".npz"))),
         st, [.readAttempt (pathJoin EMBEDDINGS_DIR (elemStr key ++ ".npz"))]⟩ := by
  simp only [load_face, load_reference_face_from_file, h, h2, h3]

theorem load_face_disk (st : F2FState) (key : Elem) :
    (load_face st key).state.disk = st.disk := by
  cases hm : dictGet st.mem key with
  | some e => rw [load_face_eq_mem st key e hm]
  | none =>
      cases hd : dictGet st.disk (pathJoin EMBEDDINGS_DIR (elemStr key ++ ".npz")) with
      | none => rw [load_face_eq_miss_absent st key hm hd]
      | some b =>
          cases hdec : decodeVectors b with
          | none => rw [load_face_eq_miss_corrupt st key b hm hd hdec]
          | some v => rw [load_face_eq_miss_hit st key b v hm hd hdec]

theorem load_face_ok_mem (st : F2FState) (key : Elem) (emb : Embedding)
    (h : (load_face st key).result = .ok emb) :
    dictGet (load_face st key).state.mem key = some emb := by
  cases hm : dictGet st.mem key with
  | some e =>
      rw [load_face_eq_mem st key e hm] at h ⊢
      simp only [Except.ok.injEq] at h
      subst h
      exact hm
  | none =>
      cases hd : dictGet st.disk (pathJoin EMBEDDINGS_DIR (elemStr key ++ ".npz")) with
      | none =>
          rw [load_face_eq_miss_absent st key hm hd] at h
          exact absurd h (by simp)
      | some b =>
          cases hdec : decodeVectors b with
          | none =>
              rw [load_face_eq_miss_corrupt st key b hm hd hdec] at h
              exact absurd h (by simp)
          | some v =>
              rw [load_face_eq_miss_hit st key b v hm hd hdec] at h ⊢
              simp only [Except.ok.injEq] at h
              subst h
              exact dictGet_dictInsert_self st.mem key v

theorem load_faces_seq_disk (elems : List Elem) :
    ∀ (st : F2FState) (acc : List (RKey × Embedding)) (i : Nat),
    (load_faces_seq st acc i elems).state.disk = st.disk := by
  induction elems with
  | nil => intro st acc i; rfl
  | cons e rest ih =>
      intro st acc i
      unfold load_faces_seq
      dsimp only
      cases h : (load_face st e).result with
      | error err => exact load_face_disk st e
      | ok emb =>
          dsimp only
          rw [ih (load_face st e).state (dictInsert acc (keyOf e i) emb) (i + 1)]
          exact load_face_disk st e

theorem load_all_loop_disk (paths : List String) :
    ∀ (st : F2FState), (load_all_loop st paths).2.1.disk = st.disk := by
  induction paths with
  | nil => intro st; rfl
  | cons p rest ih =>
      intro st
      unfold load_all_loop
      dsimp only
      cases h : (load_face st (.name p)).result with
      | error e => exact load_face_disk st (.name p)
      | ok emb =>
          dsimp only
          rw [ih (load_face st (.name p)).state]
          exact load_face_disk st (.name p)

theorem load_all_faces_disk (st : F2FState) :
    (load_all_faces st).state.disk = st.disk := by
  unfold load_all_faces
  cases h : load_all_loop st (globNpz st.disk) with
  | mk res rest =>
      obtain ⟨st2, io2⟩ := rest
      have : st2.disk = st.disk := by
        have := load_all_loop_disk (globNpz st.disk) st
        rw [h] at this
        exact this
      cases res <;> simpa using this

theorem load_faces_seq_eq_spec (elems : List Elem) :
    ∀ (st : F2FState) (acc : List (RKey × Embedding)) (i : Nat),
    load_faces_seq st acc i elems
      = ⟨Except.map (dinsertAll acc) (getManySpec i st elems).result,
         (getManySpec i st elems).state,
         (getManySpec i st elems).ioEvents⟩ := by
  induction elems with
  | nil => intro st acc i; rfl
  | cons e rest ih =>
      intro st acc i
      unfold load_faces_seq getManySpec
      dsimp only
      cases h : (load_face st e).result with
      | error err => rfl
      | ok emb =>
          dsimp only
          rw [ih (load_face st e).state (dictInsert acc (keyOf e i) emb) (i + 1)]
          cases h2 : (getManySpec (i + 1) (load_face st e).state rest).result with
          | error err => rfl
          | ok tail => rfl

theorem getManySpec_keys (elems : List Elem) :
    ∀ (i : Nat) (st : F2FState) (l : List (RKey × Embedding)),
    (getManySpec i st elems).result = .ok l →
    l.map Prod.fst = derivedKeys i elems := by
  induction elems with
  | nil =>
      intro i st l h
      simp only [getManySpec, Except.ok.injEq] at h
      subst h
      rfl
  | cons e rest ih =>
      intro i st l h
      unfold getManySpec at h
      dsimp only at h
      cases h1 : (load_face st e).result with
      | error err => rw [h1] at h; exact absurd h (by simp)
      | ok emb =>
          rw [h1] at h
          dsimp only at h
          cases h2 : (getManySpec (i + 1) (load_face st e).state rest).result with
          | error err => rw [h2] at h; exact absurd h (by simp)
          | ok tail =>
              rw [h2] at h
              simp only [Except.ok.injEq] at h
              subst h
              simp only [List.map_cons, derivedKeys, List.cons.injEq, true_and]
              exact ih (i + 1) (load_face st e).state tail h2

theorem dinsertAll_eq_append (l : List (RKey × Embedding)) :
    ∀ (acc : List (RKey × Embedding)),
    (∀ p ∈ l, ∀ q ∈ acc, q.1 ≠ p.1) → (l.map Prod.fst).Nodup →
    dinsertAll acc l = acc ++ l := by
  induction l with
  | nil => intro acc _ _; simp [dinsertAll]
  | cons kv rest ih =>
      intro acc hdisj hnodup
      unfold dinsertAll
      rw [dictInsert_eq_append acc kv.1 kv.2
        (fun q hq => hdisj kv (List.mem_cons_self _ _) q hq)]
      simp only [List.map_cons, List.nodup_cons] at hnodup
      rw [ih (acc ++ [kv]) ?hd hnodup.2]
      · simp
      case hd =>
          intro p hp q hq
          rcases List.mem_append.mp hq with hq1 | hq2
          · exact hdisj p (List.mem_cons_of_mem _ hp) q hq1
          · have : q = kv := by simpa using hq2
            subst this
            intro hEq
            exact hnodup.1 (hEq ▸ List.mem_map_of_mem Prod.fst hp)

@[simp] theorem elemStr_name (s : String) : elemStr (.name s) = s := rfl

/- ----------------------------------------------------------------------
Claims.
---------------------------------------------------------------------- -/

/-- C8: for every sequence of feature vectors `v`, including the empty
sequence, decoding the Serializer encoding of `v` gives back exactly `v`
(the numeric payload round-trips bit-exactly): decode is the inverse of
encode. -/
theorem serializer_round_trip (v : Embedding) :
    decodeVectors (encodeVectors v) = some v :=
  decode_encode v

/-- C4: `add_face` with an empty detected sequence raises
`NoFaceDetectedError` (a `ValueError` in the code) and returns the store
state exactly as it was: the memory-index entry for the name (if any) and
the file on disk (if any) are untouched, whatever the `save` flag and the
disk behaviour. -/
theorem empty_detection_rejected (st : F2FState) (face_name : String)
    (save diskFail : Bool) :
    add_face st face_name [] save diskFail
      = ⟨.error (.noFaceDetected (encode_path_safe face_name)), st⟩ := rfl

/-- C3: for every name present neither in the memory index nor in the
backing store, `load_face` raises `NotFoundError` (it returns an error,
not an empty sequence) and performs exactly one failed read attempt. -/
theorem missing_name_raises (st : F2FState) (face_name : String)
    (hm : dictGet st.mem (.name face_name) = none)
    (hd : dictGet st.disk (pathJoin EMBEDDINGS_DIR (face_name ++ ".npz")) = none) :
    load_face st (.name face_name)
      = ⟨.error (.notFound face_name), st,
         [.readAttempt (pathJoin EMBEDDINGS_DIR (face_name ++ ".npz"))]⟩ := by
  simpa [elemStr] using load_face_eq_miss_absent st (.name face_name) hm hd

theorem missing_name_raises_witness :
    dictGet (F2FState.mk [] []).mem (.name "unknown") = none
    ∧ dictGet (F2FState.mk [] []).disk
        (pathJoin EMBEDDINGS_DIR ("unknown" ++ ".npz")) = none
    ∧ load_face ⟨[], []⟩ (.name "unknown")
        = ⟨.error (.notFound "unknown"), ⟨[], []⟩,
           [.readAttempt (pathJoin EMBEDDINGS_DIR ("unknown" ++ ".npz"))]⟩ :=
  ⟨rfl, rfl, missing_name_raises ⟨[], []⟩ "unknown" rfl rfl⟩

/-- C9 (implicit): `add_face` assigns the memory index before the save
block runs; when the directory creation or file write fails and the error
propagates (`diskFail`), the memory index nevertheless already holds the
detected vectors under the sanitized name and the backing store is
unchanged — the in-memory update is not rolled back. -/
theorem add_memory_update_precedes_disk (st : F2FState) (face_name : String)
    (v : Embedding) (hv : v ≠ []) :
    (add_face st face_name v true true).result = .error .ioFailure
    ∧ dictGet (add_face st face_name v true true).state.mem
        (.name (encode_path_safe face_name)) = some v
    ∧ (add_face st face_name v true true).state.disk = st.disk := by
  have hadd : add_face st face_name v true true
      = ⟨.error .ioFailure,
         ⟨dictInsert st.mem (.name (encode_path_safe face_name)) v, st.disk⟩⟩ := by
    simp [add_face, hv]
  rw [hadd]
  exact ⟨rfl, dictGet_dictInsert_self _ _ _, rfl⟩

theorem add_memory_update_precedes_disk_witness :
    ([[1]] : Embedding) ≠ []
    ∧ ((add_face ⟨[], []⟩ "alice" [[1]] true true).result = .error .ioFailure
       ∧ dictGet (add_face ⟨[], []⟩ "alice" [[1]] true true).state.mem
           (.name (encode_path_safe "alice")) = some [[1]]
       ∧ (add_face ⟨[], []⟩ "alice" [[1]] true true).state.disk
           = (F2FState.mk [] []).disk) :=
  ⟨by decide, add_memory_update_precedes_disk ⟨[], []⟩ "alice" [[1]] (by decide)⟩

/-- C5 (amended): a `load_face` on a name present in the memory index
returns the cached vectors and performs no backing-store I/O at all; as a
consequence, whenever a first `load_face` call succeeds, a second call
for the same key (with no intervening add) is a pure cache hit — same
result, unchanged state, empty I/O list; and no `load_face` call ever
changes the backing store.  (The unconditional claim wording "I/O on at most
the first call" fails when the first call raises `NotFoundError`: see the
counterexample.) -/
theorem cache_hit_avoids_read :
    (∀ (st : F2FState) (key : Elem) (emb : Embedding),
        dictGet st.mem key = some emb → load_face st key = ⟨.ok emb, st, []⟩)
    ∧ (∀ (st : F2FState) (key : Elem) (emb : Embedding),
        (load_face st key).result = .ok emb →
        load_face (load_face st key).state key
          = ⟨.ok emb, (load_face st key).state, []⟩)
    ∧ (∀ (st : F2FState) (key : Elem), (load_face st key).state.disk = st.disk) := by
  refine ⟨fun st key emb h => load_face_eq_mem st key emb h, ?_, load_face_disk⟩
  intro st key emb h
  exact load_face_eq_mem _ key emb (load_face_ok_mem st key emb h)

theorem cache_hit_avoids_read_witness :
    dictGet (F2FState.mk [(.name "a", [[1]])] []).mem (.name "a") = some [[1]]
    ∧ load_face ⟨[(.name "a", [[1]])], []⟩ (.name "a")
        = ⟨.ok [[1]], ⟨[(.name "a", [[1]])], []⟩, []⟩ :=
  ⟨rfl, cache_hit_avoids_read.1 ⟨[(.name "a", [[1]])], []⟩ (.name "a") [[1]] rfl⟩

/-- C5 counterexample: on a store with empty memory index and empty
backing directory, two consecutive `load_face "x"` calls (no intervening
add) EACH perform a backing-store read attempt — the claimed "I/O on at
most the first call" is violated when the first call raises
`NotFoundError`. -/
theorem cache_miss_repeats_read_cex :
    (load_face ⟨[], []⟩ (.name "x")).ioEvents
        = [.readAttempt (pathJoin EMBEDDINGS_DIR "x.npz")]
    ∧ (load_face (load_face ⟨[], []⟩ (.name "x")).state (.name "x")).ioEvents
        = [.readAttempt (pathJoin EMBEDDINGS_DIR "x.npz")] :=
  ⟨rfl, rfl⟩

/-- C1 (amended): after `add_face name v save=true` succeeds — returning
the sanitized name and the encoded bytes — `load_face` AT THE SANITIZED
NAME returns vectors equal to `v` on the same store (from memory), and
likewise on a fresh store instance with empty memory index over the same
backing directory (from disk).  With the raw name this only holds when
`encode_path_safe name = name`: see the counterexample. -/
theorem add_then_get_consistency (st : F2FState) (face_name : String)
    (v : Embedding) (hv : v ≠ []) :
    (add_face st face_name v true false).result
        = .ok (encode_path_safe face_name, encodeVectors v)
    ∧ (load_face (add_face st face_name v true false).state
        (.name (encode_path_safe face_name))).result = .ok v
    ∧ (load_face ⟨[], (add_face st face_name v true false).state.disk⟩
        (.name (encode_path_safe face_name))).result = .ok v := by
  have hadd : add_face st face_name v true false
      = ⟨.ok (encode_path_safe face_name, encodeVectors v),
         ⟨dictInsert st.mem (.name (encode_path_safe face_name)) v,
          dictInsert st.disk
            (pathJoin EMBEDDINGS_DIR (encode_path_safe face_name ++ ".npz"))
            (encodeVectors v)⟩⟩ := by
    simp [add_face, hv]
  refine ⟨by rw [hadd], ?_, ?_⟩
  · rw [hadd, load_face_eq_mem _ _ v (dictGet_dictInsert_self _ _ _)]
  · rw [hadd]
    have hd2 : dictGet
        (dictInsert st.disk
          (pathJoin EMBEDDINGS_DIR (encode_path_safe face_name ++ ".npz"))
          (encodeVectors v))
        (pathJoin EMBEDDINGS_DIR
          (elemStr (.name (encode_path_safe face_name)) ++ ".npz"))
        = some (encodeVectors v) := by
      rw [elemStr_name]
      exact dictGet_dictInsert_self _ _ _
    rw [load_face_eq_miss_hit
      ⟨[], dictInsert st.disk
        (pathJoin EMBEDDINGS_DIR (encode_path_safe face_name ++ ".npz"))
        (encodeVectors v)⟩
      (.name (encode_path_safe face_name)) (encodeVectors v) v rfl hd2
      (decode_encode v)]

theorem add_then_get_consistency_witness :
    ([[1]] : Embedding) ≠ []
    ∧ ((add_face ⟨[], []⟩ "alice" [[1]] true false).result
        = .ok (encode_path_safe "alice", encodeVectors [[1]])
       ∧ (load_face (add_face ⟨[], []⟩ "alice" [[1]] true false).state
           (.name (encode_path_safe "alice"))).result = .ok [[1]]
       ∧ (load_face ⟨[], (add_face ⟨[], []⟩ "alice" [[1]] true false).state.disk⟩
           (.name (encode_path_safe "alice"))).result = .ok [[1]]) :=
  ⟨by decide, add_then_get_consistency ⟨[], []⟩ "alice" [[1]] (by decide)⟩

/-- C1 counterexample: `add_face "a b" [[1]] save=true` succeeds (the
sanitized name is "a_b"), yet `load_face` with the same raw name "a b"
raises `NotFoundError` on the very store the add ran on — the claimed
"get(name) returns vectors equal to v" fails for a name the sanitizer
rewrites. -/
theorem add_then_get_raw_name_cex :
    (add_face ⟨[], []⟩ "a b" [[1]] true false).result
        = .ok ("a_b", encodeVectors [[1]])
    ∧ (load_face (add_face ⟨[], []⟩ "a b" [[1]] true false).state
        (.name "a b")).result = .error (.notFound "a b") :=
  ⟨rfl, rfl⟩

/-- C6 (amended): after `add_face name v1 save=true` followed by
`add_face name v2 save=true`, `load_face` AT THE SANITIZED NAME returns
exactly `v2` (the `v1` vectors are no longer retrievable from the store),
and the backing-store file for the sanitized name holds exactly the
encoding of `v2` — fully replaced, not appended.  With the raw name the
lookup only works when `encode_path_safe name = name`: see the
counterexample. -/
theorem overwrite_semantics (st : F2FState) (face_name : String)
    (v1 v2 : Embedding) (h1 : v1 ≠ []) (h2 : v2 ≠ []) :
    (load_face (add_face (add_face st face_name v1 true false).state
        face_name v2 true false).state
        (.name (encode_path_safe face_name))).result = .ok v2
    ∧ dictGet (add_face (add_face st face_name v1 true false).state
        face_name v2 true false).state.disk
        (pathJoin EMBEDDINGS_DIR (encode_path_safe face_name ++ ".npz"))
      = some (encodeVectors v2) := by
  have hadd1 : add_face st face_name v1 true false
      = ⟨.ok (encode_path_safe face_name, encodeVectors v1),
         ⟨dictInsert st.mem (.name (encode_path_safe face_name)) v1,
          dictInsert st.disk
            (pathJoin EMBEDDINGS_DIR (encode_path_safe face_name ++ ".npz"))
            (encodeVectors v1)⟩⟩ := by
    simp [add_face, h1]
  rw [hadd1]
  have hadd2 : add_face
      ⟨dictInsert st.mem (.name (encode_path_safe face_name)) v1,
       dictInsert st.disk
         (pathJoin EMBEDDINGS_DIR (encode_path_safe face_name ++ ".npz"))
         (encodeVectors v1)⟩ face_name v2 true false
      = ⟨.ok (encode_path_safe face_name, encodeVectors v2),
         ⟨dictInsert (dictInsert st.mem (.name (encode_path_safe face_name)) v1)
            (.name (encode_path_safe face_name)) v2,
          dictInsert (dictInsert st.disk
            (pathJoin EMBEDDINGS_DIR (encode_path_safe face_name ++ ".npz"))
            (encodeVectors v1))
            (pathJoin EMBEDDINGS_DIR (encode_path_safe face_name ++ ".npz"))
            (encodeVectors v2)⟩⟩ := by
    simp [add_face, h2]
  rw [hadd2]
  constructor
  · rw [load_face_eq_mem _ _ v2 (dictGet_dictInsert_self _ _ _)]
  · exact dictGet_dictInsert_self _ _ _

theorem overwrite_semantics_witness :
    ([[1]] : Embedding) ≠ [] ∧ ([[2]] : Embedding) ≠ []
    ∧ ((load_face (add_face (add_face ⟨[], []⟩ "alice" [[1]] true false).state
          "alice" [[2]] true false).state
          (.name (encode_path_safe "alice"))).result = .ok [[2]]
       ∧ dictGet (add_face (add_face ⟨[], []⟩ "alice" [[1]] true false).state
          "alice" [[2]] true false).state.disk
          (pathJoin EMBEDDINGS_DIR (encode_path_safe "alice" ++ ".npz"))
         = some (encodeVectors [[2]])) :=
  ⟨by decide, by decide,
   overwrite_semantics ⟨[], []⟩ "alice" [[1]] [[2]] (by decide) (by decide)⟩

/-- C6 counterexample: two `add_face` calls for the raw name "a b"
(sanitized to "a_b") succeed, yet `load_face` with the raw name "a b"
raises `NotFoundError` instead of returning `v2` — the claimed
"get(name) returns only v2" fails for a name the sanitizer rewrites. -/
theorem overwrite_raw_name_cex :
    (add_face (add_face ⟨[], []⟩ "a b" [[1]] true false).state
        "a b" [[2]] true false).result = .ok ("a_b", encodeVectors [[2]])
    ∧ (load_face (add_face (add_face ⟨[], []⟩ "a b" [[1]] true false).state
        "a b" [[2]] true false).state (.name "a b")).result
      = .error (.notFound "a b") :=
  ⟨rfl, rfl⟩

/-- C7: `load_faces` dispatches on the shape of its argument — with
`None` it is exactly `load_all_faces`; with a single string it is the
one-entry batch on that string; with a list whose derived dict keys (the
element itself for a string element, the positional index for a
non-string element) are pairwise distinct, it equals `getManySpec`, the
definition that follows the spec wording: one entry per element obtained
through `load_face`, keyed as described, with the first failing lookup
aborting the whole batch and no partial result returned. -/
theorem load_faces_dispatch :
    (∀ (st : F2FState), load_faces st none = load_all_faces st)
    ∧ (∀ (st : F2FState) (s : String),
        load_faces st (some (Sum.inl s)) = getManySpec 0 st [Elem.name s])
    ∧ (∀ (st : F2FState) (elems : List Elem),
        (derivedKeys 0 elems).Nodup →
        load_faces st (some (Sum.inr elems)) = getManySpec 0 st elems) := by
  refine ⟨fun st => rfl, ?_, ?_⟩
  · intro st s
    unfold load_faces getManySpec
    dsimp only
    cases h : (load_face st (.name s)).result with
    | error e => rfl
    | ok emb => simp [getManySpec, keyOf]
  · intro st elems hnd
    show load_faces_seq st [] 0 elems = getManySpec 0 st elems
    rw [load_faces_seq_eq_spec elems st [] 0]
    rcases hB : getManySpec 0 st elems with ⟨res, bst, bio⟩
    cases res with
    | error err => rfl
    | ok l =>
        have hres : (getManySpec 0 st elems).result = .ok l := by rw [hB]
        have hkeys := getManySpec_keys elems 0 st l hres
        have hnodup : (l.map Prod.fst).Nodup := by rw [hkeys]; exact hnd
        have hins : dinsertAll [] l = l := by
          have := dinsertAll_eq_append l []
            (fun p _ q hq => absurd hq (List.not_mem_nil q)) hnodup
          simpa using this
        simp [Except.map, hins]

theorem load_faces_dispatch_witness :
    (derivedKeys 0 [Elem.name "a", Elem.faceObj 7]).Nodup
    ∧ load_faces ⟨[(.name "a", [[1]])], []⟩
        (some (Sum.inr [Elem.name "a", Elem.faceObj 7]))
      = getManySpec 0 ⟨[(.name "a", [[1]])], []⟩ [Elem.name "a", Elem.faceObj 7] :=
  ⟨by decide,
   load_faces_dispatch.2.2 ⟨[(.name "a", [[1]])], []⟩
     [Elem.name "a", Elem.faceObj 7] (by decide)⟩

/-- C10 (implicit): no load operation ever modifies the backing store —
for every state and every argument, the directory contents (file set and
file bytes) after `load_face`, `load_faces` (any shape) or
`load_all_faces` are exactly the contents before, whether the call
succeeds or raises; only the memory index may change. -/
theorem loads_preserve_backing_store :
    (∀ (st : F2FState) (key : Elem), (load_face st key).state.disk = st.disk)
    ∧ (∀ (st : F2FState) (req : Req), (load_faces st req).state.disk = st.disk)
    ∧ (∀ (st : F2FState), (load_all_faces st).state.disk = st.disk) := by
  refine ⟨load_face_disk, ?_, load_all_faces_disk⟩
  intro st req
  match req with
  | none => exact load_all_faces_disk st
  | some (.inl s) =>
      unfold load_faces
      dsimp only
      cases h : (load_face st (.name s)).result with
      | error e => exact load_face_disk st (.name s)
      | ok emb => exact load_face_disk st (.name s)
  | some (.inr elems) => exact load_faces_seq_disk elems st [] 0

/-- C2 (code bug): on a backing directory holding exactly the serialized
records A.npz and B.npz, with an empty memory index, `load_all_faces`
does not return `{A: vectorsA, B: vectorsB}` — it raises `NotFoundError`
for the glob path "emb/A.npz", because the loop passes the full glob path
to `load_face`, which appends a second ".npz" and joins the folder again,
probing the nonexistent file "emb/emb/A.npz.npz". -/
theorem load_all_faces_glob_path_bug :
    (load_all_faces ⟨[],
        [(pathJoin EMBEDDINGS_DIR "A.npz", encodeVectors [[1]]),
         (pathJoin EMBEDDINGS_DIR "B.npz", encodeVectors [[2]])]⟩).result
      = .error (.notFound (pathJoin EMBEDDINGS_DIR "A.npz"))
    ∧ (load_face ⟨[],
        [(pathJoin EMBEDDINGS_DIR "A.npz", encodeVectors [[1]]),
         (pathJoin EMBEDDINGS_DIR "B.npz", encodeVectors [[2]])]⟩
        (.name (pathJoin EMBEDDINGS_DIR "A.npz"))).ioEvents
      = [.readAttempt (pathJoin EMBEDDINGS_DIR
          (pathJoin EMBEDDINGS_DIR "A.npz" ++ ".npz"))] :=
  ⟨rfl, rfl⟩

end Face2Face
